import Mathlib

/-!
# Query-filter and order-by construction engine: formal model

A shallow embedding of the query construction core of the racing/sports
catalog services (`racing/db/races.go` and its near-verbatim sports copy):

* `buildAndValidateOrderByClause` — parses and validates a comma-separated
  order-by expression against an entity field set and renders an
  `ORDER BY` fragment;
* `applyFilter` — compiles structured filter criteria into a parameterized
  `WHERE` fragment plus positional arguments and assembles the final query;
* `calculateEventStatus` — derives an OPEN/CLOSED status from a timestamp.

Go strings are modelled as `List Char` (`Str`), so that every operation is
structurally recursive and kernel-computable.  Go's multiple-return
`(value, err)` idiom, in which every error return site pairs the error with
the zero value (`""` / `nil`) and callers discard the value on error, is
modelled as `Except`: the `.error` case stands for the Go pair
`(zero value, err)`.  Go's `time.Now()` is made explicit as a `now`
parameter, and instants are integers (nanoseconds since the epoch), with
`time.Time.After` being strict `>` on those integers.
-/

/-- Go strings, modelled as lists of characters. -/
abbrev Str := List Char

/-- Coerce a Lean string literal into the `List Char` model. -/
def str (s : String) : Str := s.toList

/-- `strings.ToLower`: lower-case every character. -/
def toLowerStr (s : Str) : Str := s.map Char.toLower

/-- `strings.ReplaceAll(s, "_", "")`: replacing every underscore by the empty
string deletes every underscore. -/
def removeUnderscores (s : Str) : Str := s.filter (fun c => c ≠ '_')

/-- `strings.TrimRight(s, " ")`: drop trailing spaces. -/
def trimRightSpaces (s : Str) : Str :=
  (s.reverse.dropWhile (fun c => c = ' ')).reverse

/-- `strings.TrimLeft(s, " ")`: drop leading spaces. -/
def trimLeftSpaces (s : Str) : Str := s.dropWhile (fun c => c = ' ')

/-- `strings.Split(s, sep)` for a one-character separator: the list of
(possibly empty) chunks between occurrences of `sep`.  Like Go's
`strings.Split`, it never returns an empty list: the empty string splits
into `[[]]`. -/
def splitOnChar (sep : Char) : Str → List Str
  | [] => [[]]
  | c :: cs =>
    match splitOnChar sep cs with
    | [] => [[]]
    | h :: t => if c = sep then [] :: h :: t else (c :: h) :: t

/-- `strings.Join(parts, sep)`. -/
def joinStr (sep : Str) : List Str → Str
  | [] => []
  | [s] => s
  | s :: s2 :: rest => s ++ sep ++ joinStr sep (s2 :: rest)

/-- `strings.Repeat(s, n)`. -/
def repeatStr (s : Str) (n : Nat) : Str := (List.replicate n s).flatten

instance {ε α : Type} [DecidableEq ε] [DecidableEq α] : DecidableEq (Except ε α)
  | Except.error e1, Except.error e2 => decidable_of_iff (e1 = e2) (by simp)
  | Except.error _, Except.ok _ => isFalse (by simp)
  | Except.ok _, Except.error _ => isFalse (by simp)
  | Except.ok a, Except.ok b => decidable_of_iff (a = b) (by simp)

/-- The `invalidOrderByFieldErr` error value (`races.go` /
`sports.go`). -/
def invalidOrderByFieldErr : Str := str "invalid order by field"

/-- The `sortOrderDescLower` constant. -/
def sortOrderDescLower : Str := str "desc"

/-- The `raceStatusClosed` constant of the sports repository. -/
def raceStatusClosed : Str := str "CLOSED"

/-- The `raceStatusOpen` constant of the sports repository. -/
def raceStatusOpen : Str := str "OPEN"

/-- Modelled from the spec: the proto-generated `racing.Race` struct is not
part of the repository's checked-in sources; its exported field names are
reconstructed from the spec's entity field set (`id`, `name`, `meeting_id`,
`advertised_start_time`, `visible`) together with the columns scanned by
`scanRaces` (`Id`, `MeetingId`, `Name`, `Number`, `Visible`,
`AdvertisedStartTime`).  These are the Go struct field names that
`reflect.TypeOf(racing.Race{})` exposes to `FieldByNameFunc`. -/
def raceFields : List Str :=
  [str "Id", str "MeetingId", str "Name", str "Number", str "Visible",
   str "AdvertisedStartTime"]

/-- `reflect`'s `t.FieldByNameFunc(match)`: `ok` is true exactly when the
match function selects exactly one field.  The match function used by the
source compares the lower-cased struct field name against the token with
its underscores removed (the token itself is not lower-cased):
`strings.ToLower(s) == strings.ReplaceAll(word[0], "_", "")`. -/
def fieldByNameOk (fields : List Str) (tok : Str) : Bool :=
  (fields.filter (fun s => toLowerStr s = removeUnderscores tok)).length = 1

/-- The per-term trim-and-split of `buildAndValidateOrderByClause`:
`strings.Split(strings.TrimLeft(strings.TrimRight(field, " "), " "), " ")`. -/
def splitWords (field : Str) : List Str :=
  splitOnChar ' ' (trimLeftSpaces (trimRightSpaces field))

/-- One iteration of the loop body of `buildAndValidateOrderByClause`:
validate a single comma-separated term and render it.  A one-token term is
rendered `<field> ASC` after field validation; a two-token term requires the
second token to equal `desc` case-insensitively and renders `<field> DESC`;
anything else is `invalidOrderByFieldErr`. -/
def renderOrderByTerm (fields : List Str) (field : Str) : Except Str Str :=
  match splitWords field with
  | [w0] =>
    if fieldByNameOk fields w0 then Except.ok (w0 ++ str " ASC")
    else Except.error invalidOrderByFieldErr
  | [w0, w1] =>
    if toLowerStr w1 ≠ sortOrderDescLower then Except.error invalidOrderByFieldErr
    else if fieldByNameOk fields w0 then Except.ok (w0 ++ str " DESC")
    else Except.error invalidOrderByFieldErr
  | _ => Except.error invalidOrderByFieldErr

/-- The loop of `buildAndValidateOrderByClause` over the comma-separated
terms: render each term in order, appending `", "` between consecutive
terms (the source appends `", "` whenever the index is not the last). -/
def buildOrderByBody (fields : List Str) : List Str → Except Str Str
  | [] => Except.ok []
  | [f] => renderOrderByTerm fields f
  | f :: f2 :: rest =>
    match renderOrderByTerm fields f with
    | Except.error e => Except.error e
    | Except.ok r =>
      match buildOrderByBody fields (f2 :: rest) with
      | Except.error e => Except.error e
      | Except.ok rs => Except.ok (r ++ str ", " ++ rs)

/-- `buildAndValidateOrderByClause`, parameterized by the entity field set
(the source hard-codes `racing.Race{}` resp. `sports.Event{}` as the
reflected type; everything else is identical between the two copies). -/
def buildAndValidateOrderByClause (fields : List Str) (orderByFilter : Str) :
    Except Str Str :=
  match buildOrderByBody fields (splitOnChar ',' orderByFilter) with
  | Except.error e => Except.error e
  | Except.ok body => Except.ok (str " ORDER BY " ++ body)

/-- A positional query argument: a meeting identifier (proto integer) or the
boolean `true` appended for the visibility condition. -/
inductive Arg where
  | intArg (n : Int)
  | boolArg (b : Bool)
deriving DecidableEq, Repr

/-- The `racing.ListRacesRequestFilter` message: repeated meeting ids, the
visibility flag, and the raw order-by string. -/
structure ListRacesRequestFilter where
  meetingIds : List Int
  visibleRacesOnly : Bool
  orderBy : Str

/-- `applyFilter` of the racing repository: build the list of `WHERE`
conditions and positional arguments from the filter, append the `WHERE`
fragment when at least one condition exists, then append either the
compiled custom order-by clause (propagating its error) or the fixed
default ordering.  A `nil` filter returns the base query unchanged with no
arguments. -/
def applyFilter (query : Str) (filter : Option ListRacesRequestFilter) :
    Except Str (Str × List Arg) :=
  match filter with
  | none => Except.ok (query, [])
  | some f =>
    let cl1 : List Str :=
      if 0 < f.meetingIds.length then
        [str "meeting_id IN (" ++ repeatStr (str "?,") (f.meetingIds.length - 1)
          ++ str "?)"]
      else []
    let ar1 : List Arg :=
      if 0 < f.meetingIds.length then f.meetingIds.map Arg.intArg else []
    let cl2 : List Str := cl1 ++ (if f.visibleRacesOnly then [str "visible = ?"] else [])
    let ar2 : List Arg := ar1 ++ (if f.visibleRacesOnly then [Arg.boolArg true] else [])
    let q1 : Str :=
      if cl2.length ≠ 0 then query ++ str " WHERE " ++ joinStr (str " AND ") cl2
      else query
    if f.orderBy ≠ [] then
      match buildAndValidateOrderByClause raceFields f.orderBy with
      | Except.error e => Except.error e
      | Except.ok orderByClause => Except.ok (q1 ++ orderByClause, ar2)
    else
      Except.ok (q1 ++ str " ORDER BY advertised_start_time DESC", ar2)

/-- `calculateEventStatus` of the sports repository, with `time.Now()` made
explicit: `CLOSED` when `now` is strictly after the advertised time,
`OPEN` otherwise. -/
def calculateEventStatus (now advertisedTime : Int) : Str :=
  if now > advertisedTime then raceStatusClosed else raceStatusOpen

/-- A comma-separated term is malformed when, after trimming, it splits into
three or more space-separated tokens, or into exactly two tokens whose
second is not case-insensitively equal to `desc`, or its field token fails
field validation against the entity field set. -/
def badOrderTerm (fields : List Str) (term : Str) : Prop :=
  3 ≤ (splitWords term).length ∨
  ((splitWords term).length = 2 ∧
    toLowerStr ((splitWords term).getD 1 []) ≠ sortOrderDescLower) ∨
  fieldByNameOk fields ((splitWords term).getD 0 []) = false

instance (fields : List Str) (term : Str) : Decidable (badOrderTerm fields term) := by
  unfold badOrderTerm
  infer_instance

/-- The rendering of a single well-formed term: a one-token term renders as
`<field> ASC` and a two-token term as `<field> DESC`, with the user-supplied
field token embedded verbatim. -/
def renderedTermSpec (term : Str) : Str :=
  match splitWords term with
  | [w0] => w0 ++ str " ASC"
  | [w0, _] => w0 ++ str " DESC"
  | _ => []

theorem splitOnChar_ne_nil (sep : Char) (s : Str) : splitOnChar sep s ≠ [] := by
  cases s with
  | nil => simp [splitOnChar]
  | cons c cs =>
    rw [splitOnChar]
    cases h : splitOnChar sep cs with
    | nil => simp
    | cons hd tl => by_cases hc : c = sep <;> simp [hc]

theorem splitWords_ne_nil (term : Str) : splitWords term ≠ [] :=
  splitOnChar_ne_nil _ _

theorem renderOrderByTerm_error_iff (fields : List Str) (term : Str) (e : Str) :
    renderOrderByTerm fields term = Except.error e ↔
      e = invalidOrderByFieldErr ∧ badOrderTerm fields term := by
  unfold renderOrderByTerm badOrderTerm
  rcases hs : splitWords term with _ | ⟨w0, _ | ⟨w1, _ | ⟨w2, rest⟩⟩⟩
  · exact absurd hs (splitWords_ne_nil term)
  · simp only [List.length_cons, List.length_nil, List.getD_cons_zero]
    by_cases hf : fieldByNameOk fields w0 <;> simp [hf, eq_comm]
  · simp only [List.length_cons, List.length_nil, List.getD_cons_zero,
      List.getD_cons_succ]
    by_cases hd : toLowerStr w1 = sortOrderDescLower <;>
      by_cases hf : fieldByNameOk fields w0 <;>
      simp [hd, hf, eq_comm]
  · have h3 : 3 ≤ (w0 :: w1 :: w2 :: rest).length := by
      simp only [List.length_cons]
      omega
    simp only [Except.error.injEq]
    constructor
    · intro hc
      exact ⟨hc.symm, Or.inl h3⟩
    · rintro ⟨rfl, _⟩
      rfl

theorem renderOrderByTerm_ok (fields : List Str) (term : Str)
    (h : ¬ badOrderTerm fields term) :
    renderOrderByTerm fields term = Except.ok (renderedTermSpec term) := by
  unfold badOrderTerm at h
  unfold renderOrderByTerm renderedTermSpec
  rcases hs : splitWords term with _ | ⟨w0, _ | ⟨w1, _ | ⟨w2, rest⟩⟩⟩
  · exact absurd hs (splitWords_ne_nil term)
  · rw [hs] at h
    have hf : fieldByNameOk fields w0 = true := by
      by_contra hne
      exact h (Or.inr (Or.inr (by simpa using hne)))
    simp [hf]
  · rw [hs] at h
    have hd : toLowerStr w1 = sortOrderDescLower := by
      by_contra hne
      exact h (Or.inr (Or.inl ⟨rfl, hne⟩))
    have hf : fieldByNameOk fields w0 = true := by
      by_contra hne
      exact h (Or.inr (Or.inr (by simpa using hne)))
    simp [hd, hf]
  · exfalso
    apply h
    rw [hs]
    left
    simp only [List.length_cons]
    omega

theorem buildOrderByBody_error_iff (fields : List Str) (l : List Str) :
    ∀ e : Str, buildOrderByBody fields l = Except.error e ↔
      e = invalidOrderByFieldErr ∧ ∃ t ∈ l, badOrderTerm fields t := by
  induction l with
  | nil =>
    intro e
    simp [buildOrderByBody]
  | cons f tail ih =>
    intro e
    cases tail with
    | nil =>
      rw [buildOrderByBody, renderOrderByTerm_error_iff]
      simp
    | cons f2 rest =>
      rw [buildOrderByBody]
      cases hr : renderOrderByTerm fields f with
      | error e1 =>
        rw [renderOrderByTerm_error_iff] at hr
        simp only [Except.error.injEq]
        constructor
        · rintro rfl
          exact ⟨hr.1, f, by simp, hr.2⟩
        · rintro ⟨rfl, _⟩
          exact hr.1
      | ok r =>
        have hnf : ¬ badOrderTerm fields f := by
          intro hbad
          rw [(renderOrderByTerm_error_iff fields f invalidOrderByFieldErr).mpr
            ⟨rfl, hbad⟩] at hr
          exact Except.noConfusion hr
        cases hb : buildOrderByBody fields (f2 :: rest) with
        | error e2 =>
          rw [ih] at hb
          simp only [Except.error.injEq]
          constructor
          · rintro rfl
            obtain ⟨t, ht, hbad⟩ := hb.2
            exact ⟨hb.1, t, List.mem_cons_of_mem f ht, hbad⟩
          · rintro ⟨rfl, _⟩
            exact hb.1
        | ok rs =>
          have hnt : ¬ ∃ t ∈ f2 :: rest, badOrderTerm fields t := by
            intro hex
            rw [(ih invalidOrderByFieldErr).mpr ⟨rfl, hex⟩] at hb
            exact Except.noConfusion hb
          constructor
          · intro hc
            exact absurd hc (by simp)
          · rintro ⟨rfl, t, hmem, hbad⟩
            rcases List.mem_cons.mp hmem with rfl | hmem2
            · exact absurd hbad hnf
            · exact absurd ⟨t, hmem2, hbad⟩ hnt

theorem buildOrderByBody_ok (fields : List Str) (l : List Str)
    (h : ∀ t ∈ l, ¬ badOrderTerm fields t) :
    buildOrderByBody fields l =
      Except.ok (joinStr (str ", ") (l.map renderedTermSpec)) := by
  induction l with
  | nil => simp [buildOrderByBody, joinStr]
  | cons f tail ih =>
    cases tail with
    | nil =>
      rw [buildOrderByBody, renderOrderByTerm_ok fields f (h f (by simp))]
      simp [joinStr]
    | cons f2 rest =>
      have h1 := renderOrderByTerm_ok fields f (h f (by simp))
      have h2 := ih (fun t ht => h t (by simp [ht]))
      rw [buildOrderByBody, h1, h2]
      simp [joinStr]

theorem buildOrderBy_error_iff (fields : List Str) (s : Str) (e : Str) :
    buildAndValidateOrderByClause fields s = Except.error e ↔
      e = invalidOrderByFieldErr ∧
        ∃ t ∈ splitOnChar ',' s, badOrderTerm fields t := by
  unfold buildAndValidateOrderByClause
  cases hb : buildOrderByBody fields (splitOnChar ',' s) with
  | error e2 =>
    rw [buildOrderByBody_error_iff] at hb
    simp only [Except.error.injEq]
    constructor
    · rintro rfl
      exact hb
    · rintro ⟨rfl, _⟩
      exact hb.1
  | ok body =>
    constructor
    · intro hc
      exact absurd hc (by simp)
    · rintro ⟨rfl, hex⟩
      rw [(buildOrderByBody_error_iff fields _ invalidOrderByFieldErr).mpr
        ⟨rfl, hex⟩] at hb
      exact Except.noConfusion hb

theorem buildOrderBy_ok (fields : List Str) (s : Str)
    (h : ∀ t ∈ splitOnChar ',' s, ¬ badOrderTerm fields t) :
    buildAndValidateOrderByClause fields s =
      Except.ok (str " ORDER BY " ++
        joinStr (str ", ") ((splitOnChar ',' s).map renderedTermSpec)) := by
  unfold buildAndValidateOrderByClause
  rw [buildOrderByBody_ok fields _ h]

theorem toLower_not_upper (c : Char) : (Char.toLower c).isUpper = false := by
  simp only [Char.toLower, Char.isUpper]
  split
  · rename_i h
    obtain ⟨h1, h2⟩ := h
    have hvalid : (Char.toNat c + 32).isValidChar := Or.inl (by omega)
    rw [Char.ofNat, dif_pos hvalid]
    show (decide ((65 : UInt32) ≤ _) && decide (_ ≤ (90 : UInt32))) = false
    simp only [Char.ofNatAux, UInt32.le_def, BitVec.le_def]
    simp only [BitVec.toNat_ofNatLt]
    norm_num
    omega
  · rename_i h
    simp only [Char.toNat] at h
    show (decide ((65 : UInt32) ≤ c.val) && decide (c.val ≤ (90 : UInt32))) = false
    simp only [UInt32.le_def, BitVec.le_def]
    rw [Bool.and_eq_false_iff]
    by_cases h65 : (65 : Nat) ≤ (UInt32.toBitVec c.val).toNat
    · right
      simp only [decide_eq_false_iff_not]
      intro hle
      apply h
      exact ⟨h65, hle⟩
    · left
      simp only [decide_eq_false_iff_not]
      have e65 : (UInt32.toBitVec 65).toNat = 65 := rfl
      omega

theorem dropWhile_space_eq (s : Str) (h : ' ' ∉ s) :
    s.dropWhile (fun c => c = ' ') = s := by
  cases s with
  | nil => rfl
  | cons c cs =>
    have hc : c ≠ ' ' := fun he => h (he ▸ List.mem_cons_self c cs)
    simp [List.dropWhile_cons, hc]

theorem trimLeftSpaces_eq (s : Str) (h : ' ' ∉ s) : trimLeftSpaces s = s :=
  dropWhile_space_eq s h

theorem trimRightSpaces_eq (s : Str) (h : ' ' ∉ s) : trimRightSpaces s = s := by
  unfold trimRightSpaces
  rw [dropWhile_space_eq _ (by simpa using h)]
  exact List.reverse_reverse s

theorem splitOnChar_eq_single (sep : Char) (s : Str) (h : sep ∉ s) :
    splitOnChar sep s = [s] := by
  induction s with
  | nil => rfl
  | cons c cs ih =>
    have hcs : sep ∉ cs := fun hm => h (List.mem_cons_of_mem c hm)
    have hc : c ≠ sep := fun he => h (he ▸ List.mem_cons_self c cs)
    rw [splitOnChar, ih hcs]
    simp [hc]

theorem splitWords_single (t : Str) (h : ' ' ∉ t) : splitWords t = [t] := by
  unfold splitWords
  rw [trimRightSpaces_eq t h, trimLeftSpaces_eq t h]
  exact splitOnChar_eq_single ' ' t h

theorem fieldByNameOk_of_upper (fields : List Str) (t : Str)
    (h : ∃ c ∈ t, c.isUpper = true) : fieldByNameOk fields t = false := by
  obtain ⟨c, hc, hup⟩ := h
  have hmem : c ∈ removeUnderscores t := by
    unfold removeUnderscores
    rw [List.mem_filter]
    refine ⟨hc, ?_⟩
    simp only [decide_eq_true_eq]
    intro heq
    rw [heq] at hup
    exact absurd hup (by decide)
  have hnone : ∀ g ∈ fields, ¬ (toLowerStr g = removeUnderscores t) := by
    intro g _ hgl
    have hcu : c ∈ toLowerStr g := hgl ▸ hmem
    obtain ⟨d, _, hdc⟩ := List.mem_map.mp hcu
    rw [← hdc] at hup
    rw [toLower_not_upper d] at hup
    exact Bool.noConfusion hup
  have hfilter : fields.filter (fun g => toLowerStr g = removeUnderscores t) = [] := by
    rw [List.filter_eq_nil_iff]
    intro g hg
    simpa using hnone g hg
  unfold fieldByNameOk
  rw [hfilter]
  rfl

theorem filter_eq_single {α : Type} (p : α → Bool) (l : List α) (f : α)
    (hnd : l.Nodup) (hf : f ∈ l) (hpf : p f = true)
    (huniq : ∀ g ∈ l, p g = true → g = f) :
    l.filter p = [f] := by
  induction l with
  | nil => cases hf
  | cons a tl ih =>
    rcases List.mem_cons.mp hf with rfl | hmem
    · rw [List.filter_cons_of_pos hpf]
      have htl : tl.filter p = [] := by
        rw [List.filter_eq_nil_iff]
        intro g hg hpg
        have : g = f := huniq g (List.mem_cons_of_mem f hg) hpg
        exact (List.nodup_cons.mp hnd).1 (this ▸ hg)
      rw [htl]
    · have ha : p a = false := by
        by_contra hne
        have hpa : p a = true := by
          cases hval : p a
          · exact absurd hval hne
          · rfl
        have : a = f := huniq a (List.mem_cons_self a tl) hpa
        exact (List.nodup_cons.mp hnd).1 (this ▸ hmem)
      rw [List.filter_cons_of_neg (by simp [ha])]
      exact ih (List.nodup_cons.mp hnd).2 hmem
        (fun g hg hpg => huniq g (List.mem_cons_of_mem a hg) hpg)

/-- **C4** (counterexample): a timestamp exactly equal to the current time is
derived as OPEN, not CLOSED: the source compares with the strict `After`. -/
theorem status_at_now_not_closed :
    calculateEventStatus 0 0 ≠ raceStatusClosed ∧
    calculateEventStatus 0 0 = raceStatusOpen := by
  constructor
  · decide
  · rfl

/-- **C4** (amended): a timestamp strictly after the current time derives
OPEN and a timestamp strictly before it derives CLOSED, but a timestamp
exactly equal to the current time derives OPEN, because `time.Now().After(t)`
is a strict comparison and is false at equality. -/
theorem calculateEventStatus_boundary (now t : Int) :
    (now < t → calculateEventStatus now t = raceStatusOpen) ∧
    (t < now → calculateEventStatus now t = raceStatusClosed) ∧
    calculateEventStatus now now = raceStatusOpen := by
  unfold calculateEventStatus
  refine ⟨?_, ?_, ?_⟩
  · intro h
    rw [if_neg (by omega)]
  · intro h
    rw [if_pos (by omega)]
  · rw [if_neg (by omega)]

theorem calculateEventStatus_boundary_witness :
    calculateEventStatus 3 5 = raceStatusOpen ∧
    calculateEventStatus 5 3 = raceStatusClosed ∧
    calculateEventStatus 4 4 = raceStatusOpen :=
  ⟨(calculateEventStatus_boundary 3 5).1 (by decide),
   (calculateEventStatus_boundary 5 3).2.1 (by decide),
   (calculateEventStatus_boundary 4 4).2.2⟩

/-- **C2** (counterexample): the token `Name` has a case-insensitive,
underscore-insensitive form (`name`) that names a known field, yet it fails
field validation and its compile fails with `invalidOrderByFieldErr`: the
user token is never lower-cased before the comparison. -/
theorem capital_token_fails_validation :
    fieldByNameOk raceFields (toLowerStr (str "Name")) = true ∧
    fieldByNameOk raceFields (str "Name") = false ∧
    buildAndValidateOrderByClause raceFields (str "Name") =
      Except.error invalidOrderByFieldErr := by decide

/-- **C2** (amended): field validation lower-cases only the candidate struct
field name and strips underscores from the user token; the token itself is
not lower-cased, so a single-token order-by term containing an uppercase
letter always fails field validation and its compile fails. -/
theorem orderBy_uppercase_token_fails (fields : List Str) (t : Str)
    (hup : ∃ c ∈ t, c.isUpper = true)
    (hnc : ',' ∉ t) (hns : ' ' ∉ t) :
    fieldByNameOk fields t = false ∧
    buildAndValidateOrderByClause fields t =
      Except.error invalidOrderByFieldErr := by
  have hf := fieldByNameOk_of_upper fields t hup
  refine ⟨hf, ?_⟩
  rw [buildOrderBy_error_iff]
  refine ⟨rfl, t, ?_, ?_⟩
  · rw [splitOnChar_eq_single ',' t hnc]
    exact List.mem_singleton.mpr rfl
  · unfold badOrderTerm
    rw [splitWords_single t hns]
    right
    right
    simpa using hf

theorem orderBy_uppercase_token_fails_witness :
    fieldByNameOk raceFields (str "MeetingId") = false ∧
    buildAndValidateOrderByClause raceFields (str "MeetingId") =
      Except.error invalidOrderByFieldErr :=
  orderBy_uppercase_token_fails raceFields (str "MeetingId")
    ⟨'M', by decide, by decide⟩ (by decide) (by decide)

/-- **C3** (counterexample): with absent (nil) filter criteria the assembled
query is the base query unchanged; the fixed default ordering is not
appended. -/
theorem applyFilter_nil_no_default_order :
    applyFilter (str "SELECT x FROM races") none =
      Except.ok (str "SELECT x FROM races", []) ∧
    (str " ORDER BY advertised_start_time DESC").isSuffixOf
      (str "SELECT x FROM races") = false := by
  constructor
  · rfl
  · decide

/-- **C3** (amended): for every non-nil filter whose raw order-by string is
empty the assembled query ends with the fixed default ordering
` ORDER BY advertised_start_time DESC` appended after the (possibly empty)
WHERE fragment; a nil filter instead returns the base query unchanged with
no ordering appended at all. -/
theorem applyFilter_default_order (q : Str) (f : ListRacesRequestFilter)
    (h : f.orderBy = []) :
    (∃ pre args, applyFilter q (some f) =
      Except.ok (pre ++ str " ORDER BY advertised_start_time DESC", args)) ∧
    applyFilter q none = Except.ok (q, []) := by
  constructor
  · simp only [applyFilter, h]
    exact ⟨_, _, rfl⟩
  · rfl

theorem applyFilter_default_order_witness :
    (∃ pre args, applyFilter (str "Q") (some ⟨[], false, []⟩) =
      Except.ok (pre ++ str " ORDER BY advertised_start_time DESC", args)) ∧
    applyFilter (str "Q") none = Except.ok (str "Q", []) :=
  applyFilter_default_order (str "Q") ⟨[], false, []⟩ rfl

/-- **C5**: compilation fails with `invalidOrderByFieldErr` exactly when some
comma-separated term, after trimming, splits into three or more tokens, or
into two tokens whose second is not case-insensitively `desc` (so an
explicit `asc` fails), or has a field token that fails validation against
the entity field set; and on failure the assembler propagates the error,
returning no query and no arguments. -/
theorem orderBy_fails_iff_bad_term :
    (∀ (fields : List Str) (s : Str),
      buildAndValidateOrderByClause fields s = Except.error invalidOrderByFieldErr ↔
        ∃ term ∈ splitOnChar ',' s,
          3 ≤ (splitWords term).length ∨
          ((splitWords term).length = 2 ∧
            toLowerStr ((splitWords term).getD 1 []) ≠ sortOrderDescLower) ∨
          fieldByNameOk fields ((splitWords term).getD 0 []) = false) ∧
    (∀ (q : Str) (f : ListRacesRequestFilter) (e : Str),
      f.orderBy ≠ [] →
      buildAndValidateOrderByClause raceFields f.orderBy = Except.error e →
      applyFilter q (some f) = Except.error e) := by
  constructor
  · intro fields s
    rw [buildOrderBy_error_iff]
    unfold badOrderTerm
    simp only [true_and]
  · intro q f e hne hb
    simp only [applyFilter]
    rw [if_pos hne, hb]

theorem orderBy_fails_iff_bad_term_witness :
    buildAndValidateOrderByClause raceFields (str "id asc") =
      Except.error invalidOrderByFieldErr ∧
    applyFilter (str "Q") (some ⟨[], false, str "id asc"⟩) =
      Except.error invalidOrderByFieldErr :=
  ⟨(orderBy_fails_iff_bad_term.1 raceFields (str "id asc")).mpr (by decide),
   orderBy_fails_iff_bad_term.2 (str "Q") ⟨[], false, str "id asc"⟩
     invalidOrderByFieldErr (by decide)
     ((orderBy_fails_iff_bad_term.1 raceFields (str "id asc")).mpr (by decide))⟩

/-- **C6**: when every comma-separated term of the raw order-by string
validates, the compiled clause is the single leading prefix ` ORDER BY `
followed by the rendered terms in input order joined by `, `, where a
one-token term renders as `<field> ASC` and a two-token term as
`<field> DESC`; no term is reordered, deduplicated or dropped. -/
theorem orderBy_success_shape (fields : List Str) (s : Str)
    (h : ∀ term ∈ splitOnChar ',' s,
      ¬ (3 ≤ (splitWords term).length ∨
        ((splitWords term).length = 2 ∧
          toLowerStr ((splitWords term).getD 1 []) ≠ sortOrderDescLower) ∨
        fieldByNameOk fields ((splitWords term).getD 0 []) = false)) :
    buildAndValidateOrderByClause fields s =
      Except.ok (str " ORDER BY " ++
        joinStr (str ", ") ((splitOnChar ',' s).map renderedTermSpec)) :=
  buildOrderBy_ok fields s h

theorem orderBy_success_shape_witness :
    buildAndValidateOrderByClause raceFields (str "name, id desc") =
      Except.ok (str " ORDER BY " ++
        joinStr (str ", ")
          ((splitOnChar ',' (str "name, id desc")).map renderedTermSpec)) ∧
    str " ORDER BY " ++
        joinStr (str ", ")
          ((splitOnChar ',' (str "name, id desc")).map renderedTermSpec) =
      str " ORDER BY name ASC, id DESC" :=
  ⟨orderBy_success_shape raceFields (str "name, id desc") (by decide), by decide⟩

/-- **C9**: a successful compile embeds the user-supplied field token
verbatim rather than the canonical field name: a single-token term whose
underscore-stripped form equals the lower-cased name of exactly one struct
field passes validation, and the compiled fragment contains the token
exactly as the client typed it. -/
theorem orderBy_embeds_token_verbatim (fields : List Str) (t f : Str)
    (hnd : fields.Nodup) (hnc : ',' ∉ t) (hns : ' ' ∉ t)
    (hf : f ∈ fields) (heq : toLowerStr f = removeUnderscores t)
    (huniq : ∀ g ∈ fields, toLowerStr g = removeUnderscores t → g = f) :
    buildAndValidateOrderByClause fields t =
      Except.ok (str " ORDER BY " ++ (t ++ str " ASC")) := by
  have hok : fieldByNameOk fields t = true := by
    unfold fieldByNameOk
    rw [filter_eq_single _ fields f hnd hf (by simpa using heq)
      (fun g hg hpg => huniq g hg (by simpa using hpg))]
    rfl
  unfold buildAndValidateOrderByClause
  rw [splitOnChar_eq_single ',' t hnc]
  show (match renderOrderByTerm fields t with
    | Except.error e => Except.error e
    | Except.ok body => Except.ok (str " ORDER BY " ++ body)) = _
  unfold renderOrderByTerm
  rw [splitWords_single t hns]
  simp [hok]

theorem orderBy_embeds_token_verbatim_witness :
    buildAndValidateOrderByClause raceFields (str "meeting__id") =
      Except.ok (str " ORDER BY " ++ (str "meeting__id" ++ str " ASC")) :=
  orderBy_embeds_token_verbatim raceFields (str "meeting__id") (str "MeetingId")
    (by decide) (by decide) (by decide) (by decide) (by decide) (by decide)

/-- **C10**: a term that is empty after trimming (from a leading, trailing or
doubled comma, or an all-spaces input) yields the single empty token, which
matches no non-empty field name; and a term whose trimmed form splits into
three or more tokens (e.g. from doubled internal spaces) is malformed; in
both cases the whole compile fails with `invalidOrderByFieldErr`. -/
theorem orderBy_edge_terms_fail (fields : List Str) (s : Str)
    (hne : ∀ g ∈ fields, g ≠ [])
    (h : (∃ term ∈ splitOnChar ',' s, trimLeftSpaces (trimRightSpaces term) = []) ∨
         (∃ term ∈ splitOnChar ',' s, 3 ≤ (splitWords term).length)) :
    buildAndValidateOrderByClause fields s = Except.error invalidOrderByFieldErr := by
  rw [buildOrderBy_error_iff]
  refine ⟨rfl, ?_⟩
  rcases h with ⟨t, ht, htrim⟩ | ⟨t, ht, hlen⟩
  · refine ⟨t, ht, ?_⟩
    unfold badOrderTerm
    have hsw : splitWords t = [[]] := by
      unfold splitWords
      rw [htrim]
      rfl
    rw [hsw]
    right
    right
    simp only [List.getD_cons_zero]
    unfold fieldByNameOk
    have hfil : fields.filter (fun g => toLowerStr g = removeUnderscores []) = [] := by
      rw [List.filter_eq_nil_iff]
      intro g hg
      simp only [decide_eq_true_eq]
      intro hgl
      have hmap : g.map Char.toLower = [] := hgl
      exact hne g hg (List.map_eq_nil_iff.mp hmap)
    rw [hfil]
    rfl
  · exact ⟨t, ht, Or.inl hlen⟩

theorem orderBy_edge_terms_fail_witness :
    buildAndValidateOrderByClause raceFields (str "id,,name") =
      Except.error invalidOrderByFieldErr ∧
    buildAndValidateOrderByClause raceFields (str "id  desc") =
      Except.error invalidOrderByFieldErr :=
  ⟨orderBy_edge_terms_fail raceFields (str "id,,name") (by decide)
      (Or.inl (by decide)),
   orderBy_edge_terms_fail raceFields (str "id  desc") (by decide)
      (Or.inr (by decide))⟩

theorem count_repeatStr_placeholders (m : Nat) :
    (repeatStr (str "?,") m).count '?' = m := by
  induction m with
  | zero => rfl
  | succ k ih =>
    unfold repeatStr at ih ⊢
    rw [List.replicate_succ, List.flatten_cons, List.count_append, ih]
    have h1 : (str "?,").count '?' = 1 := rfl
    rw [h1, Nat.add_comm]

/-- **C1**: noninterference of the filter compiler with the query template:
two filter criteria with the same number of meeting IDs, the same visibility
flag and the same raw order-by string produce identical query template
strings, and the meeting-ID values and the flag value appear only in the
positional argument list (IDs in input order, then `true` for the flag),
never spliced into the template. -/
theorem applyFilter_injection_safety (q : Str) (f1 f2 : ListRacesRequestFilter)
    (hlen : f1.meetingIds.length = f2.meetingIds.length)
    (hvis : f1.visibleRacesOnly = f2.visibleRacesOnly)
    (hord : f1.orderBy = f2.orderBy) :
    Except.map Prod.fst (applyFilter q (some f1)) =
      Except.map Prod.fst (applyFilter q (some f2)) ∧
    (∀ qr ar, applyFilter q (some f1) = Except.ok (qr, ar) →
      ar = f1.meetingIds.map Arg.intArg ++
        (if f1.visibleRacesOnly then [Arg.boolArg true] else [])) := by
  obtain ⟨m1, v1, o1⟩ := f1
  obtain ⟨m2, v2, o2⟩ := f2
  simp only at hlen hvis hord ⊢
  subst hvis
  subst hord
  constructor
  · simp only [applyFilter]
    rw [hlen]
    by_cases ho : o1 = []
    · subst ho
      simp [Except.map]
    · cases hb : buildAndValidateOrderByClause raceFields o1 with
      | error e => simp [ho, hb, Except.map]
      | ok c => simp [ho, hb, Except.map]
  · intro qr ar h
    simp only [applyFilter] at h
    have har : (if 0 < m1.length then m1.map Arg.intArg else []) =
        m1.map Arg.intArg := by
      cases m1 <;> simp
    rw [har] at h
    by_cases ho : o1 = []
    · subst ho
      simp only [ne_eq, not_true_eq_false, if_false] at h
      rw [Except.ok.injEq, Prod.mk.injEq] at h
      exact h.2.symm
    · rw [if_pos ho] at h
      cases hb : buildAndValidateOrderByClause raceFields o1 with
      | error e =>
        rw [hb] at h
        exact absurd h (by simp)
      | ok c =>
        rw [hb] at h
        rw [Except.ok.injEq, Prod.mk.injEq] at h
        exact h.2.symm

theorem applyFilter_injection_safety_witness :
    Except.map Prod.fst (applyFilter (str "Q") (some ⟨[1, 2], true, []⟩)) =
      Except.map Prod.fst (applyFilter (str "Q") (some ⟨[8, 9], true, []⟩)) ∧
    (∀ qr ar, applyFilter (str "Q") (some ⟨[1, 2], true, []⟩) =
        Except.ok (qr, ar) →
      ar = ([1, 2] : List Int).map Arg.intArg ++
        (if true then [Arg.boolArg true] else [])) :=
  applyFilter_injection_safety (str "Q") ⟨[1, 2], true, []⟩ ⟨[8, 9], true, []⟩
    rfl rfl rfl

/-- **C7**: for a filter whose meeting-ID list has `N > 0` identifiers, any
successful compile's template contains the single IN condition with exactly
`N` placeholder markers as the first WHERE condition, and its argument list
starts with exactly the `N` identifiers, mapped in input order. -/
theorem applyFilter_membership_placeholders (q qr : Str) (ar : List Arg)
    (f : ListRacesRequestFilter) (n : Nat)
    (hn : f.meetingIds.length = n) (h0 : 0 < n)
    (h : applyFilter q (some f) = Except.ok (qr, ar)) :
    (∃ tail, qr = q ++ str " WHERE " ++
      joinStr (str " AND ")
        ((str "meeting_id IN (" ++ repeatStr (str "?,") (n - 1) ++ str "?)") ::
          (if f.visibleRacesOnly then [str "visible = ?"] else [])) ++ tail) ∧
    ar = f.meetingIds.map Arg.intArg ++
      (if f.visibleRacesOnly then [Arg.boolArg true] else []) ∧
    (str "meeting_id IN (" ++ repeatStr (str "?,") (n - 1) ++ str "?)").count '?'
      = n := by
  have hcount :
      (str "meeting_id IN (" ++ repeatStr (str "?,") (n - 1) ++ str "?)").count '?'
        = n := by
    rw [List.count_append, List.count_append, count_repeatStr_placeholders]
    have hc1 : (str "meeting_id IN (").count '?' = 0 := rfl
    have hc2 : (str "?)").count '?' = 1 := rfl
    rw [hc1, hc2]
    omega
  obtain ⟨mi, vb, ob⟩ := f
  simp only at hn ⊢
  subst hn
  simp only [applyFilter] at h
  simp only [if_pos h0] at h
  rw [List.singleton_append] at h
  have hlen2 : ((str "meeting_id IN (" ++ repeatStr (str "?,") (mi.length - 1)
      ++ str "?)") ::
      (if vb = true then [str "visible = ?"] else [])).length ≠ 0 := by simp
  rw [if_pos hlen2] at h
  by_cases ho : ob = []
  · subst ho
    rw [if_neg (by simp)] at h
    rw [Except.ok.injEq, Prod.mk.injEq] at h
    exact ⟨⟨str " ORDER BY advertised_start_time DESC", h.1.symm⟩, h.2.symm, hcount⟩
  · rw [if_pos ho] at h
    cases hb : buildAndValidateOrderByClause raceFields ob with
    | error e =>
      rw [hb] at h
      exact absurd h (by simp)
    | ok c =>
      rw [hb] at h
      rw [Except.ok.injEq, Prod.mk.injEq] at h
      exact ⟨⟨c, h.1.symm⟩, h.2.symm, hcount⟩

theorem applyFilter_membership_placeholders_witness :
    (∃ tail, str "Q WHERE meeting_id IN (?,?,?) ORDER BY advertised_start_time DESC"
        = str "Q" ++ str " WHERE " ++
      joinStr (str " AND ")
        ((str "meeting_id IN (" ++ repeatStr (str "?,") (3 - 1) ++ str "?)") ::
          (if false then [str "visible = ?"] else [])) ++ tail) ∧
    ([Arg.intArg 5, Arg.intArg 6, Arg.intArg 7] : List Arg) =
      ([5, 6, 7] : List Int).map Arg.intArg ++
        (if false then [Arg.boolArg true] else []) ∧
    (str "meeting_id IN (" ++ repeatStr (str "?,") (3 - 1) ++ str "?)").count '?'
      = 3 :=
  applyFilter_membership_placeholders (str "Q")
    (str "Q WHERE meeting_id IN (?,?,?) ORDER BY advertised_start_time DESC")
    [Arg.intArg 5, Arg.intArg 6, Arg.intArg 7] ⟨[5, 6, 7], false, []⟩ 3
    (by decide) (by decide) (by decide)

/-- **C8**: nil filter criteria produce the unchanged base query and an empty
argument list; criteria with an empty meeting-ID list contribute no IN
condition at all (never an `IN ()` with zero placeholders), and when the
visibility flag is also unset the WHERE fragment is empty and the argument
list is empty — the appended default-ordering suffix contains neither the
keyword WHERE nor an IN condition. -/
theorem applyFilter_empty_criteria (q : Str) (f : ListRacesRequestFilter)
    (hm : f.meetingIds = []) (ho : f.orderBy = []) :
    applyFilter q none = Except.ok (q, []) ∧
    applyFilter q (some f) =
      Except.ok (q ++ (if f.visibleRacesOnly then str " WHERE visible = ?" else [])
          ++ str " ORDER BY advertised_start_time DESC",
        if f.visibleRacesOnly then [Arg.boolArg true] else []) ∧
    (f.visibleRacesOnly = false →
      applyFilter q (some f) =
        Except.ok (q ++ str " ORDER BY advertised_start_time DESC", [])) ∧
    ¬ (str "WHERE" <:+: str " ORDER BY advertised_start_time DESC") ∧
    ¬ (str "IN" <:+: str " WHERE visible = ? ORDER BY advertised_start_time DESC") := by
  obtain ⟨mi, vb, ob⟩ := f
  simp only at hm ho ⊢
  subst hm
  subst ho
  refine ⟨rfl, ?_, ?_, by decide, by decide⟩
  · cases vb with
    | false => simp [applyFilter, joinStr]
    | true =>
      simp [applyFilter, joinStr, List.append_assoc]
      decide
  · intro hvb
    subst hvb
    simp [applyFilter, joinStr]

theorem applyFilter_empty_criteria_witness :
    applyFilter (str "Q") none = Except.ok (str "Q", []) ∧
    applyFilter (str "Q") (some ⟨[], true, []⟩) =
      Except.ok (str "Q" ++ (if true then str " WHERE visible = ?" else [])
          ++ str " ORDER BY advertised_start_time DESC",
        if true then [Arg.boolArg true] else []) ∧
    (true = false →
      applyFilter (str "Q") (some ⟨[], true, []⟩) =
        Except.ok (str "Q" ++ str " ORDER BY advertised_start_time DESC", [])) ∧
    ¬ (str "WHERE" <:+: str " ORDER BY advertised_start_time DESC") ∧
    ¬ (str "IN" <:+: str " WHERE visible = ? ORDER BY advertised_start_time DESC") :=
  applyFilter_empty_criteria (str "Q") ⟨[], true, []⟩ rfl rfl

/-- Sanity check mirroring the repository test vector
"success: standard format, 1 column". -/
theorem goVector_one_column : buildAndValidateOrderByClause raceFields (str "meeting_id desc") =
    Except.ok (str " ORDER BY meeting_id DESC") := by decide

/-- Sanity check mirroring the repository test vector
"success: standard format, 2 columns". -/
theorem goVector_two_columns : buildAndValidateOrderByClause raceFields (str "meeting_id, id desc") =
    Except.ok (str " ORDER BY meeting_id ASC, id DESC") := by decide

/-- Sanity check mirroring the repository test vector "fail: capital
letters". -/
theorem goVector_capital_letters : buildAndValidateOrderByClause raceFields (str "Name, MeetingId desc") =
    Except.error invalidOrderByFieldErr := by decide

/-- Sanity check mirroring the repository test vector "fail: incorrect
field". -/
theorem goVector_incorrect_field : buildAndValidateOrderByClause raceFields (str "some-order-junk") =
    Except.error invalidOrderByFieldErr := by decide

/-- Sanity check: three meeting identifiers yield three placeholders and
three positional arguments. -/
theorem goVector_three_ids : applyFilter (str "Q") (some ⟨[5, 6, 7], false, []⟩) =
    Except.ok (str "Q WHERE meeting_id IN (?,?,?) ORDER BY advertised_start_time DESC",
      [Arg.intArg 5, Arg.intArg 6, Arg.intArg 7]) := by decide

/-- Sanity check: the visibility flag alone yields a single equality
condition and the argument `true`. -/
theorem goVector_visible_only : applyFilter (str "Q") (some ⟨[], true, []⟩) =
    Except.ok (str "Q WHERE visible = ? ORDER BY advertised_start_time DESC",
      [Arg.boolArg true]) := by decide
